import Mathlib

/-!
Verification of the GHE rainfall-aggregation notebook
(`Code/ColabNotebooks/Data Retreival/ghe.ipynb`).

The notebook's core is a batch-aggregation pipeline: select blob URLs for a
day (or a single 15-minute time point), fetch and decode each sample, zero the
negative sentinel cells, and sum the samples into a running aggregate that is
then downsampled by decimation for plotting.

The shallow embedding below models the numpy arrays as rectangular lists of
lists over `ℚ` (exact arithmetic in place of floating point), the per-sample
fetch/decode as an `Except` value, and the accumulation loop as structural
recursion over the list of fetch results, counting how many fetch results the
loop consumed.  Numpy's elementwise `+` on 2-D arrays is modelled with its
broadcasting rule (`npAdd`): a dimension of size 1 is repeated; incompatible
shapes are an error (`none`, numpy's `ValueError`).
-/

namespace GHE

/-- A 2-D array (numpy array of the notebook), with exact rational cells. -/
abbrev Grid := List (List ℚ)

/-- Cell access `m[i][j]`, defaulting to `0` out of bounds. -/
def cell (m : Grid) (i j : Nat) : ℚ :=
  (m.getD i []).getD j 0

/-- `m` is a rectangular `H × W` array. -/
def Rect (H W : Nat) (m : Grid) : Prop :=
  m.length = H ∧ ∀ r ∈ m, r.length = W

/-- `np.zeros(lat_grid_raw.shape)` (line 131 of the notebook). -/
def zeros (H W : Nat) : Grid :=
  List.replicate H (List.replicate W (0 : ℚ))

/-- `rainfall_sample[rainfall_sample < 0] = 0` (line 148): every negative
(sentinel) cell is replaced by zero. -/
def sanitize (m : Grid) : Grid :=
  m.map fun r => r.map fun x => if x < 0 then 0 else x

/-- Number of rows of the array (first component of `np.shape`). -/
def nrows (m : Grid) : Nat := m.length

/-- Number of columns of the array (second component of `np.shape` for a
rectangular array). -/
def ncols (m : Grid) : Nat := (m.headD []).length

/-- Numpy's broadcast of one dimension: equal sizes stay, a size of 1
stretches to the other, anything else is an error. -/
def bdim (a b : Nat) : Option Nat :=
  if a = b then some a
  else if a = 1 then some b
  else if b = 1 then some a
  else none

/-- Index into a possibly-stretched dimension: a dimension of size 1 always
reads index 0. -/
def bidx (n i : Nat) : Nat :=
  if n = 1 then 0 else i

/-- Numpy's elementwise `+` on 2-D arrays with broadcasting
(`rainfall = rainfall + rainfall_sample`, line 152).  `none` is numpy's
`ValueError: operands could not be broadcast together`. -/
def npAdd (x y : Grid) : Option Grid :=
  match bdim (nrows x) (nrows y), bdim (ncols x) (ncols y) with
  | some h, some w =>
      some ((List.range h).map fun i => (List.range w).map fun j =>
        cell x (bidx (nrows x) i) (bidx (ncols x) j)
          + cell y (bidx (nrows y) i) (bidx (ncols y) j))
  | _, _ => none

/-- Elementwise sum of two same-shape arrays (what `npAdd` computes when no
broadcasting is needed). -/
def gAdd (x y : Grid) : Grid :=
  List.zipWith (fun r s => List.zipWith (· + ·) r s) x y

/-- Errors surfaced by the run: `fetchErr` for download failures, `formatErr`
for decompression/decode failures, `valueErr` for numpy broadcast errors, and
`nameErr` for reading a Python variable that was never assigned. -/
inductive GHEErr where
  | fetchErr
  | formatErr
  | valueErr
  | nameErr
deriving DecidableEq

/-- One decoded sample: the 2-D `rain` variable and its `units` attribute. -/
structure Sample where
  rain : Grid
  units : String
deriving DecidableEq

/-- The accumulation loop (lines 133–154): each iteration downloads and
decodes one blob (its outcome is the `Except GHEErr Sample` element), zeroes
the sentinel cells, records the sample's units, and adds the sample into the
running sum.  A raised exception aborts the loop.  The second component counts
how many fetch results the loop consumed (i.e. how many downloads were
performed). -/
def accumLoop :
    Grid → Option String → List (Except GHEErr Sample) →
      Except GHEErr (Grid × Option String) × Nat
  | acc, u, [] => (Except.ok (acc, u), 0)
  | _, _, Except.error e :: _ => (Except.error e, 1)
  | acc, _, Except.ok s :: rest =>
      match npAdd acc (sanitize s.rain) with
      | none => (Except.error GHEErr.valueErr, 1)
      | some acc₂ =>
          ((accumLoop acc₂ (some s.units) rest).1,
           (accumLoop acc₂ (some s.units) rest).2 + 1)

/-- The summary after the loop (line 159): the print reads `rain_units`,
which is assigned only inside the loop body; reading it when no iteration ran
raises Python's `NameError`. -/
def summarize (fin : Grid × Option String) : Except GHEErr (Grid × String) :=
  match fin.2 with
  | some u => Except.ok (fin.1, u)
  | none => Except.error GHEErr.nameErr

/-- `ghe_blob_root` (line 48). -/
def gheBlobRoot : String := "https://ghe.blob.core.windows.net/noaa-ghe/"

/-- `product` (line 88). -/
def product : String := "rain_rate"

/-- The selection parameters (lines 91 and 105). -/
structure Selection where
  syear : String
  smonth : String
  sday : String
  stime : String
deriving DecidableEq

/-- The single-time-point filename (line 107):
`NPR.GEO.GHE.v1.S + year + month + day + time + .nc.gz`. -/
def singleFilename (sel : Selection) : String :=
  "NPR.GEO.GHE.v1.S" ++ sel.syear ++ sel.smonth ++ sel.sday ++ sel.stime ++ ".nc.gz"

/-- The full-day listing key `product/year/month/day` (line 113). -/
def dayKey (sel : Selection) : String :=
  product ++ "/" ++ sel.syear ++ "/" ++ sel.smonth ++ "/" ++ sel.sday

/-- The one exact blob URL of single-time-point mode (lines 107–109). -/
def singleBlobUrl (sel : Selection) : String :=
  gheBlobRoot ++ dayKey sel ++ "/" ++ singleFilename sel

/-- Modelled from the spec: the blob-store listing
(`ghe_container_client.list_blobs(name_starts_with=prefix)`, line 115) is an
external Azure SDK call, not code of this repository; per the spec it
enumerates all stored objects whose key starts with the given string, in
store order. -/
def listBlobs (store : List String) (p : String) : List String :=
  store.filter fun n => p.isPrefixOf n

/-- The selection of blob URLs (lines 100–119): single-time-point mode builds
exactly one exact URL with no listing call; full-day mode lists every object
under the day's key and prepends the blob root to each name. -/
def blobUrls (singleTimePoint : Bool) (sel : Selection) (store : List String) :
    List String :=
  if singleTimePoint then [singleBlobUrl sel]
  else (listBlobs store (dayKey sel)).map fun n => gheBlobRoot ++ n

/-- `ds_factor` (line 180). -/
def dsFactor : Nat := 10

/-- Python's `r[::f]` on one row: elements at indices `0, f, 2f, …`. -/
def strideRow (f : Nat) (r : List ℚ) : List ℚ :=
  (List.range ((r.length + f - 1) / f)).map fun j => r.getD (f * j) 0

/-- Numpy's `m[::f, ::f]`: decimation of rows and columns. -/
def decimate (f : Nat) (m : Grid) : Grid :=
  (List.range ((m.length + f - 1) / f)).map fun i => strideRow f (m.getD (f * i) [])

/-- The downsampling step (lines 180–184): rebind `lon_grid`, `lat_grid` and
`rainfall` to strided selections; `rainfall_raw` (the copy of the finalized
aggregate, line 162) is not mutated and is returned unchanged. -/
def downsampleStep (latRaw lonRaw rainRaw : Grid) : Grid × Grid × Grid × Grid :=
  (decimate dsFactor latRaw, decimate dsFactor lonRaw, decimate dsFactor rainRaw,
   rainRaw)

/-- Every entry of the array is nonnegative. -/
def EntriesNonneg (m : Grid) : Prop :=
  ∀ r ∈ m, ∀ q ∈ r, 0 ≤ q

instance (H W : Nat) (m : Grid) : Decidable (Rect H W m) :=
  decidable_of_iff (m.length = H ∧ ∀ r ∈ m, r.length = W) Iff.rfl

instance (m : Grid) : Decidable (EntriesNonneg m) :=
  decidable_of_iff (∀ r ∈ m, ∀ q ∈ r, 0 ≤ q) Iff.rfl

/-- In-bounds `cell` is plain indexing. -/
theorem cell_eq_getElem {m : Grid} {i j : Nat} (hi : i < m.length)
    (hj : j < m[i].length) : cell m i j = m[i][j] := by
  unfold cell
  simp only [List.getD_eq_getElem?_getD]
  rw [List.getElem?_eq_getElem hi]
  simp only [Option.getD_some]
  rw [List.getElem?_eq_getElem hj]
  simp

theorem rect_zeros (H W : Nat) : Rect H W (zeros H W) := by
  refine ⟨List.length_replicate .., fun r hr => ?_⟩
  rw [List.eq_of_mem_replicate hr]
  exact List.length_replicate ..

theorem rect_sanitize {H W : Nat} {m : Grid} (h : Rect H W m) :
    Rect H W (sanitize m) := by
  obtain ⟨h1, h2⟩ := h
  refine ⟨by simpa [sanitize] using h1, fun r hr => ?_⟩
  simp only [sanitize, List.mem_map] at hr
  obtain ⟨r₀, hr₀, rfl⟩ := hr
  simpa using h2 r₀ hr₀

/-- Deconstruct membership in a `zipWith`. -/
theorem of_mem_zipWith {α β γ : Type} {f : α → β → γ} :
    ∀ {as : List α} {bs : List β} {c : γ}, c ∈ List.zipWith f as bs →
      ∃ a ∈ as, ∃ b ∈ bs, c = f a b := by
  intro as
  induction as with
  | nil => intro bs c h; simp at h
  | cons a t ih =>
      intro bs c h
      cases bs with
      | nil => simp at h
      | cons b bt =>
          simp only [List.zipWith_cons_cons, List.mem_cons] at h
          rcases h with h | h
          · exact ⟨a, by simp, b, by simp, h⟩
          · obtain ⟨a₀, ha₀, b₀, hb₀, rfl⟩ := ih h
            exact ⟨a₀, by simp [ha₀], b₀, by simp [hb₀], rfl⟩

theorem rect_gAdd {H W : Nat} {x y : Grid} (hx : Rect H W x) (hy : Rect H W y) :
    Rect H W (gAdd x y) := by
  obtain ⟨hx1, hx2⟩ := hx
  obtain ⟨hy1, hy2⟩ := hy
  refine ⟨by simp [gAdd, List.length_zipWith, hx1, hy1], fun r hr => ?_⟩
  obtain ⟨a, ha, b, hb, rfl⟩ := of_mem_zipWith hr
  simp [List.length_zipWith, hx2 a ha, hy2 b hb]

/-- The sentinel mask leaves `max (cell m i j) 0` at every position. -/
theorem cell_sanitize (m : Grid) (i j : Nat) :
    cell (sanitize m) i j = max (cell m i j) 0 := by
  have hval : ∀ v : ℚ, (if v < 0 then (0 : ℚ) else v) = max v 0 := by
    intro v
    rcases lt_or_le v 0 with h | h
    · simp [h, max_eq_right h.le]
    · simp [not_lt.mpr h, max_eq_left h]
  unfold cell sanitize
  simp only [List.getD_eq_getElem?_getD, List.getElem?_map]
  cases hrow : m[i]? with
  | none => simp
  | some r =>
      simp only [Option.map_some', Option.getD_some, List.getElem?_map]
      cases hv : r[j]? with
      | none => simp
      | some v => simp [hval]

theorem ncols_of_rect {H W : Nat} {m : Grid} (h : Rect H W m) (hH : 0 < H) :
    ncols m = W := by
  obtain ⟨h1, h2⟩ := h
  cases m with
  | nil => simp at h1; omega
  | cons r t => simpa [ncols] using h2 r (List.mem_cons_self r t)

theorem cell_gAdd {H W : Nat} {x y : Grid} (hx : Rect H W x) (hy : Rect H W y)
    {i j : Nat} (hi : i < H) (hj : j < W) :
    cell (gAdd x y) i j = cell x i j + cell y i j := by
  have hix : i < x.length := hx.1 ▸ hi
  have hiy : i < y.length := hy.1 ▸ hi
  have hig : i < (gAdd x y).length := by
    simp [gAdd, List.length_zipWith, hx.1, hy.1, hi]
  have hjx : j < x[i].length := (hx.2 _ (List.getElem_mem hix)) ▸ hj
  have hjy : j < y[i].length := (hy.2 _ (List.getElem_mem hiy)) ▸ hj
  have hjg : j < (gAdd x y)[i].length := by
    simp [gAdd, List.getElem_zipWith, List.length_zipWith]
    omega
  rw [cell_eq_getElem hig hjg, cell_eq_getElem hix hjx, cell_eq_getElem hiy hjy]
  simp [gAdd, List.getElem_zipWith]

/-- On same-shape rectangular arrays, numpy's broadcast add is the plain
elementwise sum. -/
theorem npAdd_same {H W : Nat} {x y : Grid} (hx : Rect H W x) (hy : Rect H W y) :
    npAdd x y = some (gAdd x y) := by
  rcases Nat.eq_zero_or_pos H with hH | hH
  · have hx0 : x = [] := List.length_eq_zero.mp (hx.1.trans hH)
    have hy0 : y = [] := List.length_eq_zero.mp (hy.1.trans hH)
    subst hx0; subst hy0
    rfl
  · have hnx : nrows x = H := hx.1
    have hny : nrows y = H := hy.1
    have hcx : ncols x = W := ncols_of_rect hx hH
    have hcy : ncols y = W := ncols_of_rect hy hH
    unfold npAdd
    rw [hnx, hny, hcx, hcy]
    have hb1 : bdim H H = some H := by simp [bdim]
    have hb2 : bdim W W = some W := by simp [bdim]
    rw [hb1, hb2]
    show some _ = some (gAdd x y)
    refine congrArg some (List.ext_getElem ?_ ?_)
    · simp [gAdd, List.length_zipWith, hx.1, hy.1]
    · intro i hi1 hi2
      have hiH : i < H := by simpa using hi1
      have hix : i < x.length := hx.1 ▸ hiH
      have hiy : i < y.length := hy.1 ▸ hiH
      have hjxlen : x[i].length = W := hx.2 _ (List.getElem_mem hix)
      have hjylen : y[i].length = W := hy.2 _ (List.getElem_mem hiy)
      have hbi : bidx H i = i := by unfold bidx; split <;> omega
      rw [List.getElem_map, List.getElem_range]
      refine List.ext_getElem ?_ ?_
      · simp [gAdd, List.getElem_zipWith, List.length_zipWith, hjxlen, hjylen]
      · intro j hj1 hj2
        have hjW : j < W := by simpa using hj1
        have hjx : j < x[i].length := hjxlen ▸ hjW
        have hjy : j < y[i].length := hjylen ▸ hjW
        have hbj : bidx W j = j := by unfold bidx; split <;> omega
        rw [List.getElem_map, List.getElem_range, hbi, hbj,
          cell_eq_getElem hix hjx, cell_eq_getElem hiy hjy]
        simp [gAdd, List.getElem_zipWith]

theorem cell_nonneg {m : Grid} (h : EntriesNonneg m) (i j : Nat) :
    0 ≤ cell m i j := by
  unfold cell
  simp only [List.getD_eq_getElem?_getD]
  cases hrow : m[i]? with
  | none => simp
  | some r =>
      simp only [Option.getD_some]
      cases hv : r[j]? with
      | none => simp
      | some v =>
          simp only [Option.getD_some]
          exact h r (List.getElem?_mem hrow) v (List.getElem?_mem hv)

theorem entriesNonneg_zeros (H W : Nat) : EntriesNonneg (zeros H W) := by
  intro r hr q hq
  rw [List.eq_of_mem_replicate hr] at hq
  rw [List.eq_of_mem_replicate hq]

theorem entriesNonneg_sanitize (m : Grid) : EntriesNonneg (sanitize m) := by
  intro r hr q hq
  simp only [sanitize, List.mem_map] at hr
  obtain ⟨r₀, _, rfl⟩ := hr
  simp only [List.mem_map] at hq
  obtain ⟨x, _, rfl⟩ := hq
  split
  · exact le_refl 0
  · next hx => exact not_lt.mp hx

theorem entriesNonneg_gAdd {x y : Grid} (hx : EntriesNonneg x)
    (hy : EntriesNonneg y) : EntriesNonneg (gAdd x y) := by
  intro r hr q hq
  obtain ⟨a, ha, b, hb, rfl⟩ := of_mem_zipWith hr
  obtain ⟨qa, hqa, qb, hqb, rfl⟩ := of_mem_zipWith hq
  exact add_nonneg (hx a ha qa hqa) (hy b hb qb hqb)

/-- The loop over successfully fetched, same-shape samples: the final state is
the elementwise left fold of the masked samples, the units variable holds the
last sample's units, and every sample was fetched exactly once. -/
theorem accumLoop_ok {H W : Nat} (acc : Grid) (u : Option String)
    (l : List Sample) (hacc : Rect H W acc) (hl : ∀ s ∈ l, Rect H W s.rain) :
    accumLoop acc u (l.map Except.ok) =
      (Except.ok (List.foldl (fun a s => gAdd a (sanitize s.rain)) acc l,
                  List.foldl (fun _ s => some s.units) u l),
       l.length) := by
  induction l generalizing acc u with
  | nil => rfl
  | cons s rest ih =>
      have hs : Rect H W s.rain := hl s (by simp)
      have hrest : ∀ t ∈ rest, Rect H W t.rain := fun t ht => hl t (by simp [ht])
      have hnp := npAdd_same hacc (rect_sanitize hs)
      simp only [List.map_cons, accumLoop, hnp]
      rw [ih (gAdd acc (sanitize s.rain)) (some s.units)
        (rect_gAdd hacc (rect_sanitize hs)) hrest]
      simp

theorem zipWith_add_right_comm :
    ∀ z a b : List ℚ, List.zipWith (· + ·) (List.zipWith (· + ·) z a) b
      = List.zipWith (· + ·) (List.zipWith (· + ·) z b) a := by
  intro z
  induction z with
  | nil => intro a b; simp
  | cons zh zt ih =>
      intro a b
      cases a with
      | nil => simp
      | cons ah atl =>
          cases b with
          | nil => simp
          | cons bh btl =>
              simp only [List.zipWith_cons_cons, ih]
              rw [add_right_comm]

/-- One fold step commutes with the next, globally. -/
theorem gAdd_right_comm (z a b : Grid) :
    gAdd (gAdd z a) b = gAdd (gAdd z b) a := by
  induction z generalizing a b with
  | nil => simp [gAdd]
  | cons zh zt ih =>
      cases a with
      | nil => simp [gAdd]
      | cons ah atl =>
          cases b with
          | nil => simp [gAdd]
          | cons bh btl =>
              simp only [gAdd, List.zipWith_cons_cons]
              rw [zipWith_add_right_comm]
              exact congrArg _ (ih atl btl)

/-- The loop's units variable after a non-empty run is the last sample's. -/
theorem foldl_units_last :
    ∀ (l : List Sample) (hne : l ≠ []) (u : Option String),
      List.foldl (fun _ s => some s.units) u l = some (l.getLast hne).units := by
  intro l
  induction l with
  | nil => intro hne; exact absurd rfl hne
  | cons s rest ih =>
      intro hne u
      cases rest with
      | nil => simp [List.getLast]
      | cons t ts =>
          rw [List.foldl_cons, List.getLast_cons (by simp)]
          exact ih (by simp) _

theorem bdim_eq_none {a b : Nat} (h : ¬(a = b ∨ a = 1 ∨ b = 1)) :
    bdim a b = none := by
  unfold bdim
  push_neg at h
  rw [if_neg h.1, if_neg h.2.1, if_neg h.2.2]

theorem npAdd_none_of_rows {x y : Grid} (h : bdim (nrows x) (nrows y) = none) :
    npAdd x y = none := by
  cases hc : bdim (ncols x) (ncols y) <;> simp [npAdd, h, hc]

theorem npAdd_none_of_cols {x y : Grid} (h : bdim (ncols x) (ncols y) = none) :
    npAdd x y = none := by
  cases hr : bdim (nrows x) (nrows y) <;> simp [npAdd, h, hr]

/-- Decimation reads the raw array at the stretched indices. -/
theorem cell_decimate {H W f : Nat} {m : Grid} (hm : Rect H W m) (hf : 0 < f)
    {i j : Nat} (hi : i < (H + f - 1) / f) (hj : j < (W + f - 1) / f) :
    cell (decimate f m) i j = cell m (f * i) (f * j) := by
  have key : ∀ P : Nat, P + f ≤ H + f - 1 → P < H := by
    intro P
    omega
  have h1 : (i + 1) * f ≤ H + f - 1 := (Nat.le_div_iff_mul_le hf).mp hi
  have hiH : f * i < H := by
    rw [mul_comm]
    exact key (i * f) (by rw [Nat.succ_mul] at h1; exact h1)
  have hi' : i < (m.length + f - 1) / f := by rw [hm.1]; exact hi
  have hiL : f * i < m.length := by rw [hm.1]; exact hiH
  have hrowlen : (m.getD (f * i) []).length = W := by
    rw [List.getD_eq_getElem?_getD, List.getElem?_eq_getElem hiL]
    exact hm.2 _ (List.getElem_mem hiL)
  have hj' : j < ((m.getD (f * i) []).length + f - 1) / f := by
    rw [hrowlen]; exact hj
  have hout : (decimate f m).getD i [] = strideRow f (m.getD (f * i) []) := by
    unfold decimate
    rw [List.getD_eq_getElem?_getD, List.getElem?_map, List.getElem?_range hi']
    rfl
  have hin : (strideRow f (m.getD (f * i) [])).getD j 0
      = (m.getD (f * i) []).getD (f * j) 0 := by
    unfold strideRow
    rw [List.getD_eq_getElem?_getD, List.getElem?_map, List.getElem?_range hj']
    rfl
  unfold cell
  rw [hout, hin]

theorem cell_zeros (H W i j : Nat) : cell (zeros H W) i j = 0 := by
  unfold cell zeros
  simp only [List.getD_eq_getElem?_getD]
  cases hrow : (List.replicate H (List.replicate W (0 : ℚ)))[i]? with
  | none => simp
  | some r =>
      rw [List.eq_of_mem_replicate (List.getElem?_mem hrow)]
      simp only [Option.getD_some]
      cases hv : (List.replicate W (0 : ℚ))[j]? with
      | none => simp [hv]
      | some v =>
          have hv0 : v = 0 := List.eq_of_mem_replicate (List.getElem?_mem hv)
          simp [hv, hv0]

theorem entriesNonneg_foldl (l : List Sample) (acc : Grid)
    (h : EntriesNonneg acc) :
    EntriesNonneg (List.foldl (fun a s => gAdd a (sanitize s.rain)) acc l) := by
  induction l generalizing acc with
  | nil => simpa
  | cons s rest ih => exact ih _ (entriesNonneg_gAdd h (entriesNonneg_sanitize s.rain))

/-- C1: one fold step on same-shape arrays succeeds and increases every cell
`A[i][j]` by exactly `max (S[i][j]) 0`: negative sentinel values contribute
zero, non-negative values are added unchanged. -/
theorem fold_step_adds_clamped {H W : Nat} {A : Grid} {S : Sample}
    (hA : Rect H W A) (hS : Rect H W S.rain) :
    npAdd A (sanitize S.rain) = some (gAdd A (sanitize S.rain)) ∧
    ∀ i j, i < H → j < W →
      cell (gAdd A (sanitize S.rain)) i j
        = cell A i j + max (cell S.rain i j) 0 := by
  refine ⟨npAdd_same hA (rect_sanitize hS), fun i j hi hj => ?_⟩
  rw [cell_gAdd hA (rect_sanitize hS) hi hj, cell_sanitize]

/-- Witness for C1 at a concrete 2×2 aggregate and sample. -/
theorem fold_step_adds_clamped_witness :
    npAdd [[1, 2], [3, 4]]
        (sanitize (Sample.mk [[5, -1], [0, 7]] "mm").rain)
      = some (gAdd [[1, 2], [3, 4]]
          (sanitize (Sample.mk [[5, -1], [0, 7]] "mm").rain)) ∧
    ∀ i j, i < 2 → j < 2 →
      cell (gAdd [[1, 2], [3, 4]]
          (sanitize (Sample.mk [[5, -1], [0, 7]] "mm").rain)) i j
        = cell ([[1, 2], [3, 4]] : Grid) i j
          + max (cell (Sample.mk [[5, -1], [0, 7]] "mm").rain i j) 0 :=
  @fold_step_adds_clamped 2 2 [[1, 2], [3, 4]] (Sample.mk [[5, -1], [0, 7]] "mm")
    (by decide) (by decide)

/-- C2 counterexample: with the spec's two samples the code computes the
aggregate `[[4, 4], [0, 2]]`, which differs from the claimed `[[4, 3], [0, 2]]`
(cell (0,1) receives `max (-1) 0 + max 4 0 = 4`, not 3). -/
theorem day_sum_scenario_cex :
    (accumLoop (zeros 2 2) none
        [Except.ok ⟨[[1, -1], [0, 2]], "mm"⟩,
         Except.ok ⟨[[3, 4], [-1, -1]], "mm"⟩]).1
      = Except.ok ([[4, 4], [0, 2]], some "mm") ∧
    ([[4, 4], [0, 2]] : Grid) ≠ [[4, 3], [0, 2]] := by
  constructor
  · norm_num [accumLoop, npAdd, nrows, ncols, bdim, bidx, cell, zeros, sanitize,
      List.range_succ, List.replicate_succ, List.getD]
  · norm_num

/-- C2 amended: folding the samples `[[1,-1],[0,2]]` and `[[3,4],[-1,-1]]`
(in that order) into a zero-initialized (2,2) aggregate yields the finalized
aggregate `[[4, 4], [0, 2]]`. -/
theorem day_sum_scenario :
    accumLoop (zeros 2 2) none
        [Except.ok ⟨[[1, -1], [0, 2]], "mm"⟩,
         Except.ok ⟨[[3, 4], [-1, -1]], "mm"⟩]
      = (Except.ok ([[4, 4], [0, 2]], some "mm"), 2) := by
  norm_num [accumLoop, npAdd, nrows, ncols, bdim, bidx, cell, zeros, sanitize,
    List.range_succ, List.replicate_succ, List.getD]

/-- C3 counterexample: a decoded sample of shape (1,2) against a (2,2)
reference grid does not make the run fail — numpy silently broadcasts the
sample across the aggregate's rows and the fold succeeds. -/
theorem shape_mismatch_broadcast_cex :
    nrows ([[5, -1]] : Grid) ≠ nrows (zeros 2 2) ∧
    (accumLoop (zeros 2 2) none [Except.ok ⟨[[5, -1]], "mm"⟩]).1
      = Except.ok ([[5, 0], [5, 0]], some "mm") := by
  constructor
  · norm_num [nrows, zeros]
  · norm_num [accumLoop, npAdd, nrows, ncols, bdim, bidx, cell, zeros, sanitize,
      List.range_succ, List.replicate_succ, List.getD]

/-- C3 amended: a sample whose decoded shape is not broadcast-compatible with
the aggregate's shape aborts the run with an error at the fold step (numpy's
broadcast `ValueError`, not a `FormatError`); a sample whose shape differs
but is broadcast-compatible (a dimension of size 1) is silently broadcast
into the aggregate, as the counterexample shows. -/
theorem incompatible_sample_aborts {H W h w : Nat} {acc : Grid}
    {u : Option String} {s : Sample} {rest : List (Except GHEErr Sample)}
    (hacc : Rect H W acc) (hs : Rect h w s.rain) (hH : 0 < H) (hh : 0 < h)
    (hinc : ¬((H = h ∨ H = 1 ∨ h = 1) ∧ (W = w ∨ W = 1 ∨ w = 1))) :
    accumLoop acc u (Except.ok s :: rest)
      = (Except.error GHEErr.valueErr, 1) := by
  have hrs : Rect h w (sanitize s.rain) := rect_sanitize hs
  have hnone : npAdd acc (sanitize s.rain) = none := by
    rw [not_and_or] at hinc
    rcases hinc with hrow | hcol
    · refine npAdd_none_of_rows ?_
      have hn1 : nrows acc = H := hacc.1
      have hn2 : nrows (sanitize s.rain) = h := hrs.1
      rw [hn1, hn2]
      exact bdim_eq_none hrow
    · refine npAdd_none_of_cols ?_
      rw [ncols_of_rect hacc hH, ncols_of_rect hrs hh]
      exact bdim_eq_none hcol
  simp [accumLoop, hnone]

/-- Witness for the amended C3: a (3,2) sample against a (2,2) aggregate. -/
theorem incompatible_sample_aborts_witness :
    accumLoop (zeros 2 2) none
        [Except.ok (Sample.mk [[1, 1], [1, 1], [1, 1]] "mm")]
      = (Except.error GHEErr.valueErr, 1) :=
  @incompatible_sample_aborts 2 2 3 2 (zeros 2 2) none
    (Sample.mk [[1, 1], [1, 1], [1, 1]] "mm") []
    (rect_zeros 2 2) (by decide) (by decide) (by decide) (by decide)

/-- C4: with zero matching identifiers the selection is empty, the
accumulation performs zero fetches and ends with the all-zeros aggregate (so
no `FetchError` is ever raised), but the summary then fails: `rain_units` is
assigned only inside the loop body, so the zero-sample run raises `NameError`
instead of succeeding. -/
theorem empty_selection_zero_aggregate_name_error {H W : Nat}
    {sel : Selection} {store : List String}
    (fetch : String → Except GHEErr Sample)
    (hnone : ∀ n ∈ store, ¬(dayKey sel).isPrefixOf n) :
    blobUrls false sel store = [] ∧
    accumLoop (zeros H W) none ((blobUrls false sel store).map fetch)
      = (Except.ok (zeros H W, none), 0) ∧
    summarize (zeros H W, none) = Except.error GHEErr.nameErr := by
  have hurl : blobUrls false sel store = [] := by
    show (listBlobs store (dayKey sel)).map (fun n => gheBlobRoot ++ n) = []
    rw [List.map_eq_nil_iff]
    unfold listBlobs
    rw [List.filter_eq_nil_iff]
    simpa using hnone
  refine ⟨hurl, ?_, rfl⟩
  rw [hurl]
  rfl

/-- Witness for C4 at an empty store. -/
theorem empty_selection_zero_aggregate_name_error_witness :
    blobUrls false (Selection.mk "2020" "04" "09" "0200") [] = [] ∧
    accumLoop (zeros 2 2) none
        ((blobUrls false (Selection.mk "2020" "04" "09" "0200") []).map
          (fun _ => Except.error GHEErr.fetchErr))
      = (Except.ok (zeros 2 2, none), 0) ∧
    summarize (zeros 2 2, none) = Except.error GHEErr.nameErr :=
  empty_selection_zero_aggregate_name_error
    (fun _ => Except.error GHEErr.fetchErr) (by simp)

/-- C5: folding same-shape samples in any permutation of the listing order
yields the same finalized aggregate array (exact arithmetic). -/
theorem fold_perm_same_aggregate {H W : Nat} {l₁ l₂ : List Sample}
    (hperm : l₁.Perm l₂) (hl : ∀ s ∈ l₁, Rect H W s.rain) :
    Except.map Prod.fst (accumLoop (zeros H W) none (l₁.map Except.ok)).1
      = Except.map Prod.fst (accumLoop (zeros H W) none (l₂.map Except.ok)).1 := by
  have hl₂ : ∀ s ∈ l₂, Rect H W s.rain := fun s hs => hl s (hperm.mem_iff.mpr hs)
  rw [accumLoop_ok (zeros H W) none l₁ (rect_zeros H W) hl,
    accumLoop_ok (zeros H W) none l₂ (rect_zeros H W) hl₂]
  simp only [Except.map]
  exact congrArg _ (hperm.foldl_eq'
    (fun x _ y _ z => gAdd_right_comm z (sanitize x.rain) (sanitize y.rain))
    (zeros H W))

/-- Witness for C5: two concrete samples folded in both orders. -/
theorem fold_perm_same_aggregate_witness :
    Except.map Prod.fst (accumLoop (zeros 2 2) none
        ([Sample.mk [[1, -1], [0, 2]] "mm",
          Sample.mk [[3, 4], [-1, -1]] "in"].map Except.ok)).1
      = Except.map Prod.fst (accumLoop (zeros 2 2) none
        ([Sample.mk [[3, 4], [-1, -1]] "in",
          Sample.mk [[1, -1], [0, 2]] "mm"].map Except.ok)).1 :=
  fold_perm_same_aggregate
    (List.Perm.swap (Sample.mk [[3, 4], [-1, -1]] "in")
      (Sample.mk [[1, -1], [0, 2]] "mm") [])
    (by decide)

/-- C6: single-time-point mode yields exactly one identifier — the exact URL
built from the selection parameters, independent of the store contents (no
listing) — while full-day mode yields precisely the URLs of the store objects
whose name starts with the `product/year/month/day` key. -/
theorem selection_modes (sel : Selection) (store store₂ : List String)
    (u : String) :
    (blobUrls true sel store).length = 1 ∧
    blobUrls true sel store = [singleBlobUrl sel] ∧
    blobUrls true sel store = blobUrls true sel store₂ ∧
    (u ∈ blobUrls false sel store ↔
      ∃ n ∈ store, (dayKey sel).isPrefixOf n ∧ u = gheBlobRoot ++ n) := by
  refine ⟨rfl, rfl, rfl, ?_⟩
  show u ∈ (listBlobs store (dayKey sel)).map (fun n => gheBlobRoot ++ n) ↔ _
  simp only [listBlobs, List.mem_map, List.mem_filter]
  constructor
  · rintro ⟨n, ⟨hn, hp⟩, rfl⟩
    exact ⟨n, hn, hp, rfl⟩
  · rintro ⟨n, hn, hp, rfl⟩
    exact ⟨n, ⟨hn, hp⟩, rfl⟩

/-- C7: if the loop consumes the fetches `pre` successfully and the next
fetch fails with `e`, the whole run aborts with `e` after exactly
`pre.length + 1` downloads: the failing sample is not retried or skipped, no
later sample is fetched, and the result is the error — no partial aggregate
is exposed. -/
theorem run_aborts_at_first_failure {acc : Grid} {u : Option String}
    {pre post : List (Except GHEErr Sample)} {e : GHEErr} {B : Grid}
    {ub : Option String}
    (h : accumLoop acc u pre = (Except.ok (B, ub), pre.length)) :
    accumLoop acc u (pre ++ Except.error e :: post)
      = (Except.error e, pre.length + 1) := by
  induction pre generalizing acc u with
  | nil => rfl
  | cons r rest ih =>
      cases r with
      | error e₀ => simp [accumLoop] at h
      | ok s =>
          cases hnp : npAdd acc (sanitize s.rain) with
          | none => simp [accumLoop, hnp] at h
          | some acc₂ =>
              simp only [accumLoop, hnp, List.cons_append, List.length_cons] at h ⊢
              rw [Prod.mk.injEq] at h
              have hpair : accumLoop acc₂ (some s.units) rest
                  = (Except.ok (B, ub), rest.length) := by
                refine Prod.ext h.1 ?_
                omega
              have ihh : accumLoop acc₂ (some s.units)
                  (rest ++ Except.error e :: post)
                  = (Except.error e, rest.length + 1) := ih hpair
              rw [show rest.append (Except.error e :: post)
                  = rest ++ Except.error e :: post from rfl, ihh]

/-- Witness for C7: one good fetch, then a failing one, then one more that is
never consumed. -/
theorem run_aborts_at_first_failure_witness :
    accumLoop (zeros 1 1) none
        ([Except.ok (Sample.mk [[2]] "mm")] ++
          Except.error GHEErr.formatErr :: [Except.ok (Sample.mk [[3]] "mm")])
      = (Except.error GHEErr.formatErr, 2) :=
  @run_aborts_at_first_failure (zeros 1 1) none [Except.ok (Sample.mk [[2]] "mm")]
    [Except.ok (Sample.mk [[3]] "mm")] GHEErr.formatErr [[2]] (some "mm")
    (by norm_num [accumLoop, npAdd, nrows, ncols, bdim, bidx, cell, zeros,
      sanitize, List.range_succ, List.replicate_succ, List.getD])

/-- C8: the aggregate starts as all zeros; a fold step is pointwise monotone
non-decreasing and preserves nonnegativity; and the finalized aggregate of a
successful run has no negative cell. -/
theorem aggregate_nonneg {H W : Nat} {A : Grid} {S : Sample} {l : List Sample}
    (hA : Rect H W A) (hS : Rect H W S.rain) (hAnn : EntriesNonneg A)
    (hl : ∀ s ∈ l, Rect H W s.rain) :
    (∀ i j, cell (zeros H W) i j = 0) ∧
    (∀ i j, i < H → j < W →
      cell A i j ≤ cell (gAdd A (sanitize S.rain)) i j) ∧
    (∀ i j, 0 ≤ cell (gAdd A (sanitize S.rain)) i j) ∧
    (∃ B ub, accumLoop (zeros H W) none (l.map Except.ok)
        = (Except.ok (B, ub), l.length) ∧ ∀ i j, 0 ≤ cell B i j) := by
  refine ⟨fun i j => cell_zeros H W i j, fun i j hi hj => ?_, fun i j => ?_, ?_⟩
  · rw [cell_gAdd hA (rect_sanitize hS) hi hj]
    exact le_add_of_nonneg_right (cell_nonneg (entriesNonneg_sanitize S.rain) i j)
  · exact cell_nonneg (entriesNonneg_gAdd hAnn (entriesNonneg_sanitize S.rain)) i j
  · refine ⟨_, _, accumLoop_ok (zeros H W) none l (rect_zeros H W) hl,
      fun i j => cell_nonneg ?_ i j⟩
    exact entriesNonneg_foldl l (zeros H W) (entriesNonneg_zeros H W)

/-- Witness for C8 with a concrete aggregate, sample and run. -/
theorem aggregate_nonneg_witness :
    (∀ i j, cell (zeros 2 2) i j = 0) ∧
    (∀ i j, i < 2 → j < 2 →
      cell ([[1, 0], [0, 2]] : Grid) i j
        ≤ cell (gAdd [[1, 0], [0, 2]]
            (sanitize (Sample.mk [[3, -1], [2, 2]] "mm").rain)) i j) ∧
    (∀ i j, 0 ≤ cell (gAdd [[1, 0], [0, 2]]
        (sanitize (Sample.mk [[3, -1], [2, 2]] "mm").rain)) i j) ∧
    (∃ B ub, accumLoop (zeros 2 2) none
          ([Sample.mk [[3, -1], [2, 2]] "mm"].map Except.ok)
        = (Except.ok (B, ub), [Sample.mk [[3, -1], [2, 2]] "mm"].length) ∧
      ∀ i j, 0 ≤ cell B i j) :=
  @aggregate_nonneg 2 2 [[1, 0], [0, 2]] (Sample.mk [[3, -1], [2, 2]] "mm")
    [Sample.mk [[3, -1], [2, 2]] "mm"]
    (by decide) (by decide) (by decide) (by decide)

/-- C9: after a successful non-empty run the recorded units string is exactly
the last sample's units attribute — each fold overwrites the stored value, so
divergent units resolve silently to the final sample's. -/
theorem units_from_last_sample {H W : Nat} {l : List Sample} (hne : l ≠ [])
    (hl : ∀ s ∈ l, Rect H W s.rain) :
    ∃ B, accumLoop (zeros H W) none (l.map Except.ok)
        = (Except.ok (B, some (l.getLast hne).units), l.length) := by
  have hrun := accumLoop_ok (zeros H W) none l (rect_zeros H W) hl
  rw [foldl_units_last l hne none] at hrun
  exact ⟨_, hrun⟩

/-- Witness for C9: two samples with units "mm" then "in"; the run records
"in". -/
theorem units_from_last_sample_witness :
    ∃ B, accumLoop (zeros 1 1) none
        ([Sample.mk [[1]] "mm", Sample.mk [[2]] "in"].map Except.ok)
      = (Except.ok (B, some "in"), 2) :=
  @units_from_last_sample 1 1 [Sample.mk [[1]] "mm", Sample.mk [[2]] "in"]
    (by decide) (by decide)

/-- C10: downsampling is decimation by the fixed factor 10 — every cell of
the downsampled latitude, longitude and rainfall arrays reads the raw array
at `(10 i, 10 j)` — and the accumulated raw rainfall array itself is returned
unchanged. -/
theorem downsampling_is_decimation {H W : Nat} {lat lon rain : Grid}
    {i j : Nat} (hlat : Rect H W lat) (hlon : Rect H W lon)
    (hrain : Rect H W rain) (hi : i < (H + dsFactor - 1) / dsFactor)
    (hj : j < (W + dsFactor - 1) / dsFactor) :
    cell (downsampleStep lat lon rain).1 i j
        = cell lat (dsFactor * i) (dsFactor * j) ∧
    cell (downsampleStep lat lon rain).2.1 i j
        = cell lon (dsFactor * i) (dsFactor * j) ∧
    cell (downsampleStep lat lon rain).2.2.1 i j
        = cell rain (dsFactor * i) (dsFactor * j) ∧
    (downsampleStep lat lon rain).2.2.2 = rain := by
  have hf : 0 < dsFactor := by norm_num [dsFactor]
  exact ⟨cell_decimate hlat hf hi hj, cell_decimate hlon hf hi hj,
    cell_decimate hrain hf hi hj, rfl⟩

/-- Witness for C10 on concrete 2×2 grids (whose decimation keeps cell
(0,0)). -/
theorem downsampling_is_decimation_witness :
    cell (downsampleStep [[1, 2], [3, 4]] [[5, 6], [7, 8]] [[9, 1], [2, 3]]).1 0 0
        = cell ([[1, 2], [3, 4]] : Grid) (dsFactor * 0) (dsFactor * 0) ∧
    cell (downsampleStep [[1, 2], [3, 4]] [[5, 6], [7, 8]] [[9, 1], [2, 3]]).2.1 0 0
        = cell ([[5, 6], [7, 8]] : Grid) (dsFactor * 0) (dsFactor * 0) ∧
    cell (downsampleStep [[1, 2], [3, 4]] [[5, 6], [7, 8]] [[9, 1], [2, 3]]).2.2.1 0 0
        = cell ([[9, 1], [2, 3]] : Grid) (dsFactor * 0) (dsFactor * 0) ∧
    (downsampleStep [[1, 2], [3, 4]] [[5, 6], [7, 8]] [[9, 1], [2, 3]]).2.2.2
        = [[9, 1], [2, 3]] :=
  @downsampling_is_decimation 2 2 [[1, 2], [3, 4]] [[5, 6], [7, 8]]
    [[9, 1], [2, 3]] 0 0 (by decide) (by decide) (by decide) (by decide)
    (by decide)

end GHE
